import Mathlib

/-!
# Verification of the Caissa chess-engine search core

Shallow embedding of the search core of the Caissa chess engine
(`src/Search.cpp`, `src/src/backend/TranspositionTable.hpp`,
`src/src/backend/SearchUtils.cpp`, `src/src/backend/MovePicker.cpp`,
`MoveOrderer` translation unit), together with theorems settling the
specification claims about it.

Machine integers are modelled as `Nat`/`Int` with explicit wrapping where the
C++ code can wrap; C++ integer division (truncation toward zero) is modelled
explicitly.  Calls into components that are external to the embedded code
(recursive search calls, the static evaluator, move generation) are modelled
as oracle values/functions carried in the input structures.
-/

namespace Caissa

/-- C++ `int32_t` division truncates toward zero.  For a positive divisor this
is floor division for non-negative dividends and negated floor division of the
negation otherwise. -/
def cppDiv (a b : Int) : Int :=
  if 0 ≤ a then a / b else -((-a) / b)

/-! ## Transposition table (`src/src/backend/TranspositionTable.hpp`)

`TTEntry` is an 8-byte record: `score : i16`, `staticEval : i16`,
`move : PackedMove` (16 bits), `depth : i8`, and a packed byte holding
`bounds : 2 bits` and `generation : 6 bits`.  `TTEntry::GetHash` reinterprets
the record as two 32-bit words and XORs them. -/

inductive TTBounds
  | Invalid
  | Lower
  | Upper
  | Exact
  deriving DecidableEq, Repr

/-- Numeric value of the 2-bit `Bounds` field (`Invalid = 0`, `Lower = 1`,
`Upper = 2`, `Exact = Lower|Upper = 3`). -/
def TTBounds.toBits : TTBounds → Nat
  | .Invalid => 0
  | .Lower => 1
  | .Upper => 2
  | .Exact => 3

structure TTEntry where
  score : Int          -- int16
  staticEval : Int     -- int16
  move : Nat           -- PackedMove, 16 bits
  depth : Int          -- int8
  bounds : TTBounds    -- 2 bits
  generation : Nat     -- 6 bits
  deriving DecidableEq, Repr

/-- Two's-complement encoding of an `int16` field into 16 bits. -/
def u16 (x : Int) : Nat := (x % 65536).toNat

/-- Two's-complement encoding of an `int8` field into 8 bits. -/
def u8 (x : Int) : Nat := (x % 256).toNat

/-- First 32-bit word of the entry's memory image: `score` (low 16 bits) and
`staticEval` (high 16 bits), little-endian field order of the struct. -/
def TTEntry.word0 (e : TTEntry) : Nat := u16 e.score + 65536 * u16 e.staticEval

/-- Second 32-bit word: `move` (16 bits), `depth` (8 bits), then the packed
`bounds`/`generation` byte. -/
def TTEntry.word1 (e : TTEntry) : Nat :=
  e.move % 65536 + 65536 * u8 e.depth
    + 16777216 * (e.bounds.toBits + 4 * (e.generation % 64))

/-- `TTEntry::GetHash`: XOR of the two 32-bit words of the entry image. -/
def TTEntry.GetHash (e : TTEntry) : Nat := e.word0 ^^^ e.word1

/-- `TranspositionTable::InternalEntry`: a 32-bit verification key plus the
entry. -/
structure InternalEntry where
  key : Nat            -- uint32
  entry : TTEntry
  deriving DecidableEq, Repr

/-- `InternalEntry::Store`: the Hyatt/Mann XOR trick on write. -/
def InternalEntry.Store (positionKey : Nat) (newEntry : TTEntry) : InternalEntry :=
  { key := positionKey ^^^ newEntry.GetHash, entry := newEntry }

/-- `InternalEntry::Load`: reconstruct the position key on read. -/
def InternalEntry.Load (r : InternalEntry) : Nat × TTEntry :=
  (r.key ^^^ r.entry.GetHash, r.entry)

/-- Modelled from the spec: the implementation file `TranspositionTable.cpp`
(containing `TranspositionTable::Read`) is not under `src/`; per the spec the
reader reconstructs `hash_low32 = key32 XOR hash_of_entry_bits` and "a torn
read yields a mismatched key32 and is rejected as a miss".  The probe of one
cluster record returns the entry iff the reconstructed key matches the probing
position's (low 32 bits of) hash. -/
def probe (positionKey : Nat) (r : InternalEntry) : Option TTEntry :=
  if r.Load.1 = positionKey then some r.entry else none

/-! ## Move-ordering history counters (`MoveOrderer`, `src/unnamed/part_001`) -/

/-- `UpdateHistoryCounter`:
`newValue = counter + delta - (counter * abs(delta) + 8192) / 16384`
with C++ (truncating) division. -/
def updateHistoryCounter (counter delta : Int) : Int :=
  counter + delta - cppDiv (counter * (delta.natAbs : Int) + 8192) 16384

/-- Quiet-move history bonus from `MoveOrderer::UpdateQuietMovesHistory`:
`bonus = min(128 * (depth - 1) + depth * depth, 2000)`. -/
def quietMoveBonus (depth : Int) : Int :=
  min (128 * (depth - 1) + depth * depth) 2000

/-! ## Cuckoo table initialization (`src/src/backend/SearchUtils.cpp`, `SearchUtils::Init`)

`SearchUtils::Init` loops over both colors, the five non-pawn piece kinds, and
all ordered square pairs `squareA < squareB`, inserting one cuckoo entry (and
incrementing `count`) whenever `squareB` is in the empty-board attack set of
the piece on `squareA`.

Modelled from the spec: the `Bitboard::Get*Attacks` empty-board attack
generators are not under `src/`; they are modelled here by the standard chess
attack geometry ("reversible single-piece move (knight, bishop, rook, queen,
king between attack-connected square pairs)"). -/

/-- File (column) of a 0-based square index. -/
def fileOf (s : Nat) : Nat := s % 8

/-- Rank (row) of a 0-based square index. -/
def rankOf (s : Nat) : Nat := s / 8

/-- Absolute distance between two naturals. -/
def sqDist (a b : Nat) : Nat := max a b - min a b

/-- Empty-board knight attack relation. -/
def knightAttack (a b : Nat) : Bool :=
  let df := sqDist (fileOf a) (fileOf b); let dr := sqDist (rankOf a) (rankOf b)
  (df == 1 && dr == 2) || (df == 2 && dr == 1)

/-- Empty-board king attack relation. -/
def kingAttack (a b : Nat) : Bool :=
  let df := sqDist (fileOf a) (fileOf b); let dr := sqDist (rankOf a) (rankOf b)
  df ≤ 1 && dr ≤ 1 && !(df == 0 && dr == 0)

/-- Empty-board rook attack relation. -/
def rookAttack (a b : Nat) : Bool :=
  a != b && (fileOf a == fileOf b || rankOf a == rankOf b)

/-- Empty-board bishop attack relation. -/
def bishopAttack (a b : Nat) : Bool :=
  let df := sqDist (fileOf a) (fileOf b); let dr := sqDist (rankOf a) (rankOf b)
  df == dr && df != 0

/-- Empty-board queen attack relation. -/
def queenAttack (a b : Nat) : Bool := rookAttack a b || bishopAttack a b

/-- Number of square pairs `a < b` connected by the given attack relation
(the inner two loops of `SearchUtils::Init` for one piece kind). -/
def pairCount (att : Nat → Nat → Bool) : Nat :=
  ((List.range 64).map (fun a =>
    ((List.range 64).filter (fun b => a + 1 ≤ b && att a b)).length)).sum

/-- Total number of cuckoo-table insertions performed by `SearchUtils::Init`:
both colors, the piece kinds `{Knight, Bishop, Rook, Queen, King}` (pawn
moves excluded as irreversible), one insertion per attack-connected pair. -/
def cuckooInitCount : Nat :=
  2 * (pairCount knightAttack + pairCount bishopAttack + pairCount rookAttack
       + pairCount queenAttack + pairCount kingAttack)

/-! ## Repetition detection (`src/src/backend/SearchUtils.cpp`, `SearchUtils::IsRepetition`)

The function walks the contiguous node-stack array from the current node
toward the root (`--prevNode`), aborting on any valid previous move that is a
pawn move or a capture, comparing positions at even ply distance (same side to
move), and finally consulting the played-game repetition map.  The stack is
modelled as the current node plus the list of its ancestors (nearest first,
root last); the `Game` repetition map is an oracle `Pos → Nat` giving
`game.GetRepetitionCount(position)`. -/

/-- A position, abstractly: its 64-bit Zobrist hash plus the remaining board
state (the code compares `GetHash()` first and falls back to full equality to
guard against hash collisions). -/
structure Pos where
  hash : Nat
  board : Nat
  deriving DecidableEq, Repr

/-- The fields of a `NodeInfo::previousMove` inspected by `IsRepetition`. -/
structure PrevMove where
  valid : Bool         -- Move::IsValid()
  piece : Nat          -- GetPiece(); Pawn = 1
  isCapture : Bool     -- IsCapture()
  deriving DecidableEq, Repr

/-- The fields of a search-stack `NodeInfo` inspected by `IsRepetition`. -/
structure SNode where
  position : Pos
  previousMove : PrevMove
  deriving DecidableEq, Repr

/-- The early-termination test of the stack walk: a valid previous move that
is a pawn move or a capture is irreversible
(`prevNode->previousMove.GetPiece() == Piece::Pawn ||
prevNode->previousMove.IsCapture()`, guarded by `IsValid()`). -/
def PrevMove.irreversible (m : PrevMove) : Bool :=
  m.valid && (m.piece == 1 || m.isCapture)

/-- The loop of `SearchUtils::IsRepetition`.  `prev` is the node the iteration
starts at, `rest` the remaining ancestors below it (root last), `ply` the loop
counter (starts at 1).  An empty `rest` corresponds to `prevNode->height == 0`. -/
def isRepetitionLoop (game : Pos → Nat) (cur : Pos) : SNode → List SNode → Nat → Bool
  | prev, [], _ =>
    if prev.previousMove.irreversible then false
    else decide (2 ≤ game cur)
  | prev, next :: others, ply =>
    if prev.previousMove.irreversible then false
    else if (ply % 2 == 0) && (next.position.hash == cur.hash) && (next.position == cur) then
      true
    else
      isRepetitionLoop game cur next others (ply + 1)

/-- `SearchUtils::IsRepetition(node, game)`: walk from `node` (with its
ancestor stack) and finally consult the game repetition map. -/
def IsRepetition (game : Pos → Nat) (node : SNode) (ancestors : List SNode) : Bool :=
  isRepetitionLoop game node.position node ancestors 1

/-- The claim's clause (a): some ancestor at an even, positive ply distance
holds a position identical to the current one, and no (valid) pawn move or
capture occurs on the chain of moves between them. -/
def SpecStackRepetition (S : List SNode) (cur : Pos) : Prop :=
  ∃ k, ∃ hk : k < S.length, 0 < k ∧ k % 2 = 0 ∧ (S.get ⟨k, hk⟩).position = cur ∧
    ∀ j, ∀ hj : j < S.length, j < k →
      (S.get ⟨j, hj⟩).previousMove.irreversible = false

/-- No (valid) pawn move or capture anywhere on the chain from the current
node down to the root. -/
def SpecChainReversible (S : List SNode) : Prop :=
  ∀ j, ∀ hj : j < S.length, (S.get ⟨j, hj⟩).previousMove.irreversible = false

/-! ## Move picker (`src/src/backend/MovePicker.cpp`)

The staged `MovePicker::PickMove` state machine.  Moves are modelled by the
fields the picker inspects (`IsValid`, `IsQuiet`, `IsCapture`) plus an
identity; `MoveFromPacked` resolution is folded into those fields.  Move
generation and scoring (`Position::GenerateMoveList`, `MoveOrderer::ScoreMoves`)
are external to this translation unit and enter as pre-scored oracle lists;
generation appends to `m_moves` (the spec's deferred bad captures presuppose
this), and the `MoveOrderer` score constants, whose header is not under
`src/`, are modelled with their relative order only. -/

inductive MPStage
  | PVMove
  | TTMove
  | Captures
  | Killer1
  | Killer2
  | Counter
  | GenerateQuiets
  | PickQuiets
  | End
  deriving DecidableEq, Repr

/-- Position of a stage in the declared stage order. -/
def MPStage.idx : MPStage → Nat
  | .PVMove => 0
  | .TTMove => 1
  | .Captures => 2
  | .Killer1 => 3
  | .Killer2 => 4
  | .Counter => 5
  | .GenerateQuiets => 6
  | .PickQuiets => 7
  | .End => 8

/-- A move, as the picker sees it. -/
structure PMove where
  id : Nat
  valid : Bool
  isQuiet : Bool
  isCapture : Bool
  deriving DecidableEq, Repr

/-- `Move::Invalid()`. -/
def PMove.invalid : PMove := { id := 0, valid := false, isQuiet := false, isCapture := false }

/-- Modelled from the spec: `MoveOrderer.hpp` is not under `src/`; only the
relative order of the score constants is observable in `MovePicker.cpp`. -/
def PVMoveValue : Int := 1000000000

def TTMoveValue : Int := 900000000

def PromotionValue : Int := 800000000

def KillerMoveBonus : Int := 100000

def CounterMoveBonus : Int := 90000

/-- `MovePicker` state: current stage plus the data the stages consult. -/
structure MovePicker where
  stage : MPStage
  moveIndex : Nat
  pvMove : PMove
  ttMoves : List PMove              -- m_ttEntry.moves, resolved
  moves : List (PMove × Int)        -- m_moves with scores
  killer0 : PMove                   -- killer slot 0 for this height, resolved
  killer1 : PMove                   -- killer slot 1 for this height, resolved
  counterMove : PMove               -- counter move for previousMove, resolved
  genQuiets : Bool                  -- m_moveGenFlags & MOVE_GEN_MASK_QUIET
  capturesGen : List (PMove × Int)  -- oracle: generated and scored captures/promotions
  quietsGen : List (PMove × Int)    -- oracle: generated and scored quiets
  savedKiller0 : PMove              -- m_killerMoves[0]
  savedKiller1 : PMove              -- m_killerMoves[1]
  savedCounter : PMove              -- m_counterMove
  deriving DecidableEq, Repr

/-- `MoveList::BestMoveIndex` helper: index of the (first) highest-scored
move. -/
def bestMoveIdxAux : List (PMove × Int) → Nat → Nat → Int → Nat
  | [], _, bi, _ => bi
  | (_, s) :: rest, i, bi, bs =>
    if bs < s then bestMoveIdxAux rest (i + 1) i s
    else bestMoveIdxAux rest (i + 1) bi bs

/-- `MoveList::BestMoveIndex` on a possibly-empty list. -/
def bestMoveIdx : List (PMove × Int) → Option Nat
  | [] => none
  | (_, s) :: rest => some (bestMoveIdxAux rest 1 0 s)

/-- `Stage::PickQuiets` body. -/
def stagePickQuiets (s : MovePicker) : Option (PMove × Int) × MovePicker :=
  match bestMoveIdx s.moves with
  | some i =>
    let ms := s.moves.getD i (PMove.invalid, 0)
    (some ms, { s with moves := s.moves.eraseIdx i, stage := .PickQuiets })
  | none => (none, { s with stage := .End })

/-- `Stage::GenerateQuiets` body: generate and score quiets (appending to the
move list), remove PV/TT/killer/counter moves, fall through to `PickQuiets`. -/
def stageGenerateQuiets (s : MovePicker) : Option (PMove × Int) × MovePicker :=
  let s := { s with stage := .PickQuiets }
  let s :=
    if s.genQuiets then
      { s with moves :=
          (s.moves ++ s.quietsGen).filter (fun ms =>
            !(ms.1 == s.pvMove) && !(s.ttMoves.contains ms.1)
              && !(ms.1 == s.savedKiller0) && !(ms.1 == s.savedKiller1)
              && !(ms.1 == s.savedCounter)) }
    else s
  stagePickQuiets s

/-- `Stage::Counter` body. -/
def stageCounter (s : MovePicker) : Option (PMove × Int) × MovePicker :=
  let s := { s with stage := .GenerateQuiets }
  let c := s.counterMove
  if c.valid && !(c == s.pvMove) && !(s.ttMoves.contains c)
      && !(c == s.killer0) && !(c == s.killer1) && !c.isCapture then
    (some (c, CounterMoveBonus), { s with savedCounter := c })
  else
    stageGenerateQuiets s

/-- `Stage::Killer2` body.  Note the stored next stage is `GenerateQuiets`:
the `Counter` body runs only by fallthrough when no killer is yielded here. -/
def stageKiller2 (s : MovePicker) : Option (PMove × Int) × MovePicker :=
  let s := { s with stage := .GenerateQuiets }
  let k := s.killer1
  if k.valid && !(k == s.pvMove) && !(s.ttMoves.contains k) && !k.isCapture then
    (some (k, KillerMoveBonus - 1), { s with savedKiller1 := k })
  else
    stageCounter s

/-- `Stage::Killer1` body. -/
def stageKiller1 (s : MovePicker) : Option (PMove × Int) × MovePicker :=
  let s := { s with stage := .Killer2 }
  let k := s.killer0
  if k.valid && !(k == s.pvMove) && !(s.ttMoves.contains k) && !k.isCapture then
    (some (k, KillerMoveBonus), { s with savedKiller0 := k })
  else
    stageKiller2 s

/-- `Stage::Captures` body: yield the best remaining capture while it scores
at least `PromotionValue`; lower-scored (bad) captures stay in the list.  In
quiescence (`!generateQuiets`) the picker then ends; otherwise it falls
through to the killer stages. -/
def stageCaptures (s : MovePicker) : Option (PMove × Int) × MovePicker :=
  match bestMoveIdx s.moves with
  | some i =>
    let ms := s.moves.getD i (PMove.invalid, 0)
    if PromotionValue ≤ ms.2 then
      (some ms, { s with moves := s.moves.eraseIdx i })
    else if !s.genQuiets then (none, { s with stage := .End })
    else stageKiller1 { s with stage := .Killer1 }
  | none =>
    if !s.genQuiets then (none, { s with stage := .End })
    else stageKiller1 { s with stage := .Killer1 }

/-- The `Stage::TTMove` scan from `m_moveIndex` upward. -/
def ttFindFrom (pv : PMove) (genQuiets : Bool) : List PMove → Nat → Option (Nat × PMove)
  | [], _ => none
  | m :: rest, i =>
    if m.valid && (!m.isQuiet || genQuiets) && !(m == pv) then some (i, m)
    else ttFindFrom pv genQuiets rest (i + 1)

/-- `Stage::TTMove` body: yield the next usable TT move, else generate and
score captures (removing PV/TT moves) and fall through to `Captures`. -/
def stageTTMove (s : MovePicker) : Option (PMove × Int) × MovePicker :=
  match ttFindFrom s.pvMove s.genQuiets (s.ttMoves.drop s.moveIndex) s.moveIndex with
  | some (i, m) => (some (m, TTMoveValue - i), { s with moveIndex := i + 1 })
  | none =>
    stageCaptures
      { s with stage := .Captures, moveIndex := 0,
               moves := s.capturesGen.filter (fun ms =>
                 !(ms.1 == s.pvMove) && !(s.ttMoves.contains ms.1)) }

/-- `Stage::PVMove` body. -/
def stagePVMove (s : MovePicker) : Option (PMove × Int) × MovePicker :=
  let s := { s with stage := .TTMove }
  if s.pvMove.valid && (!s.pvMove.isQuiet || s.genQuiets) then
    (some (s.pvMove, PVMoveValue), s)
  else
    stageTTMove s

/-- `MovePicker::PickMove`: dispatch on the stored stage; C++ fallthrough is
the chaining of stage bodies above. -/
def pickMove (s : MovePicker) : Option (PMove × Int) × MovePicker :=
  match s.stage with
  | .PVMove => stagePVMove s
  | .TTMove => stageTTMove s
  | .Captures => stageCaptures s
  | .Killer1 => stageKiller1 s
  | .Killer2 => stageKiller2 s
  | .Counter => stageCounter s
  | .GenerateQuiets => stageGenerateQuiets s
  | .PickQuiets => stagePickQuiets s
  | .End => (none, s)

/-! ## NegaMax (`src/Search.cpp`, `Search::NegaMax`)

One invocation of `Search::NegaMax`, with external calls replaced by oracles:
`IsDraw`, `IsInCheck`, the TT read, the static evaluator, `QuiescenceNegaMax`
and the recursive child searches.  Search constants `CheckmateValue` and
`InfValue` come from the in-src header (`src/unnamed/part_000`); the header
declaring `InvalidValue` and `MaxDepthShift` for this translation unit is not
under `src/`, so they are modelled as an `INT32_MAX` sentinel and an 8-bit
fractional-depth shift. -/

def CheckmateValue : Int := 100000

def InfValue : Int := 10000000

def InvalidValue : Int := 2147483647

def MaxDepthShift : Nat := 8

def NullMovePrunningStartDepth : Nat := 3

def NullMovePrunningDepthReduction : Nat := 3

def LateMoveReductionStartDepth : Nat := 3

def LateMoveReductionRate : Nat := 8

def LateMovePrunningStartDepth : Nat := 3

def AspirationWindowSearchStartDepth : Nat := 4

def AspirationWindowMax : Int := 200

def AspirationWindowMin : Int := 20

def AspirationWindowStep : Int := 20

def BetaPruningDepth : Nat := 6

def BetaMarginMultiplier : Int := 80

def BetaMarginBias : Int := 30

def AlphaPruningDepth : Nat := 4

def AlphaMarginMultiplier : Int := 150

def AlphaMarginBias : Int := 1000

/-- The old-layout `TranspositionTableEntry` fields consulted by `NegaMax`
(`src/unnamed/part_000`), with the `std::find` move-filter membership test
pre-evaluated. -/
structure TTRead where
  score : Int
  flag : TTBounds          -- Flag_Exact / Flag_LowerBound / Flag_UpperBound
  depth : Nat              -- uint8
  moveValid : Bool         -- ttEntry->move.IsValid()
  isFiltered : Bool        -- ttEntry->move found in node.moveFilter
  deriving DecidableEq, Repr

/-- One entry of the generated move list, with the recursive child search as
an oracle `search alpha beta maxDepthFractional` returning the child's
`NegaMax` value. -/
structure ChildSearch where
  legal : Bool             -- childPosition.DoMove(move) succeeded
  isQuiet : Bool           -- move.IsQuiet()
  search : Int → Int → Nat → Int

/-- Input of one `NegaMax` invocation. -/
structure NMInput where
  height : Nat                       -- node.depth (ply from root)
  maxDepthFractional : Nat
  alpha : Int
  beta : Int
  isPvNode : Bool
  isNullMove : Bool
  parentIsNullMove : Bool
  isInCheck : Bool                   -- node.position->IsInCheck(node.color)
  isDraw : Bool                      -- IsDraw(node)
  tt : Option TTRead                 -- mTranspositionTable.Read(*node.position)
  eval : Int                         -- ColorMultiplier(color) * Evaluate(position)
  quiescence : Int                   -- QuiescenceNegaMax(node, ctx)
  nullSearch : Int → Int → Nat → Int -- NegaMax of the null-move child
  moves : List ChildSearch           -- generated moves, in PickBestMove order

/-- `node.MaxDepth()`: integer part of the fractional depth. -/
def nodeMaxDepth (inp : NMInput) : Nat := inp.maxDepthFractional >>> MaxDepthShift

/-- `inversedDepth = node.MaxDepth() - node.depth` in `uint32` arithmetic
(wraps modulo `2^32` when `depth` exceeds `MaxDepth`). -/
def inversedDepth (inp : NMInput) : Nat :=
  (nodeMaxDepth inp % 4294967296 + 4294967296 - inp.height % 4294967296) % 4294967296

/-- Outcome of the transposition-table block: an early return, or tightened
bounds plus the remembered `ttScore`/`ttMove` validity. -/
inductive TTStepResult
  | ret (v : Int)
  | go (alpha beta ttScore : Int) (ttMoveValid : Bool)
  deriving DecidableEq, Repr

/-- The transposition-table lookup block of `NegaMax` (non-PV cutoff by
bound, bound tightening, hash-move retention). -/
def ttStep (inp : NMInput) : TTStepResult :=
  match inp.tt with
  | none => .go inp.alpha inp.beta InvalidValue false
  | some e =>
    if inversedDepth inp ≤ e.depth ∧ e.isFiltered = false ∧ inp.isPvNode = false then
      if e.flag = .Exact then .ret e.score
      else
        let alpha := if e.flag = .Lower then max inp.alpha e.score else inp.alpha
        let beta := if e.flag = .Upper then min inp.beta e.score else inp.beta
        if beta ≤ alpha then .ret alpha
        else .go alpha beta e.score e.moveValid
    else .go inp.alpha inp.beta InvalidValue e.moveValid

/-- `Search::PruneByMateDistance` (nonzero result means an immediate return of
that value in `NegaMax`). -/
def pruneByMateDistance (height : Nat) (alpha beta : Int) : Int :=
  let mv1 := CheckmateValue - (height : Int)
  let beta' := if mv1 < beta then mv1 else beta
  if mv1 < beta ∧ mv1 ≤ alpha then mv1
  else
    let mv2 := -CheckmateValue + (height : Int)
    if alpha < mv2 ∧ beta' ≤ mv2 then mv2
    else 0

/-- `alphaMargin = AlphaMarginBias + AlphaMarginMultiplier * inversedDepth`. -/
def alphaMarginOf (inp : NMInput) : Int :=
  AlphaMarginBias + AlphaMarginMultiplier * (inversedDepth inp : Int)

/-- `betaMargin = BetaMarginBias + BetaMarginMultiplier * inversedDepth`. -/
def betaMarginOf (inp : NMInput) : Int :=
  BetaMarginBias + BetaMarginMultiplier * (inversedDepth inp : Int)

/-- The static evaluation used by the futility block: `ttScore` when set,
otherwise the evaluator. -/
def staticEvalOf (inp : NMInput) (ttScore : Int) : Int :=
  if ttScore ≠ InvalidValue then ttScore else inp.eval

/-- The futility-pruning block (alpha pruning, then beta pruning); `some v`
means `NegaMax` returns `v` here. -/
def futilityStep (inp : NMInput) (alpha beta ttScore : Int) : Option Int :=
  if inp.isPvNode = false ∧ inp.isInCheck = false then
    let se := staticEvalOf inp ttScore
    if inversedDepth inp ≤ AlphaPruningDepth ∧ se + alphaMarginOf inp ≤ alpha then
      some (se + alphaMarginOf inp)
    else if inversedDepth inp ≤ BetaPruningDepth ∧ beta ≤ se - betaMarginOf inp then
      some (se - betaMarginOf inp)
    else none
  else none

/-- The null-move-pruning block; `some beta` means `NegaMax` returns `beta`
here. -/
def nullMoveStep (inp : NMInput) (beta ttScore : Int) (ttMoveValid : Bool) : Option Int :=
  if inp.isPvNode = false ∧ inp.isInCheck = false
      ∧ NullMovePrunningStartDepth ≤ inversedDepth inp
      ∧ beta ≤ ttScore ∧ ttMoveValid = false then
    if inp.isNullMove = false ∧ inp.parentIsNullMove = false then
      let nullScore := - inp.nullSearch (-beta) (-beta + 1)
        (inp.maxDepthFractional - (NullMovePrunningDepthReduction <<< MaxDepthShift))
      if beta ≤ nullScore then some beta else none
    else none
  else none

/-- The move loop of `NegaMax`: returns the final `alpha`, the number of
legal moves found, and whether it ended in a beta cutoff.  Illegal moves
(`DoMove` fails) are skipped; late-move-pruned moves still count as legal. -/
def runMoves (inp : NMInput) (beta : Int) (extFrac totalQuiet : Nat) :
    List ChildSearch → Int → Nat → Nat → Int × Nat × Bool
  | [], alpha, numLegal, _ => (alpha, numLegal, false)
  | m :: rest, alpha, numLegal, numReduced =>
    if m.legal = false then
      runMoves inp beta extFrac totalQuiet rest alpha numLegal numReduced
    else
      let numLegal' := numLegal + 1
      let childMaxBase := inp.maxDepthFractional + extFrac
      let doReduce := m.isQuiet && !inp.isInCheck && decide (0 < totalQuiet)
        && decide (1 < numLegal') && decide (LateMoveReductionStartDepth ≤ inversedDepth inp)
      let reduction :=
        if doReduce then (max 1 (numReduced / LateMoveReductionRate)) <<< MaxDepthShift else 0
      let numReduced' := if doReduce then numReduced + 1 else numReduced
      if doReduce && decide (LateMovePrunningStartDepth ≤ inversedDepth inp)
          && decide (childMaxBase < reduction) then
        runMoves inp beta extFrac totalQuiet rest alpha numLegal' numReduced'
      else
        let childMax := childMaxBase - reduction
        let score0 :=
          if numLegal' = 1 then - m.search (-beta) (-alpha) childMax
          else
            let zw := - m.search (-alpha - 1) (-alpha) childMax
            if alpha < zw ∧ zw < beta then - m.search (-beta) (-alpha) childMax else zw
        let score :=
          if 0 < reduction ∧ alpha < score0 then - m.search (-beta) (-alpha) childMaxBase
          else score0
        let alpha' := if alpha < score then score else alpha
        if beta ≤ score then (alpha', numLegal', true)
        else runMoves inp beta extFrac totalQuiet rest alpha' numLegal' numReduced'

/-- One invocation of `Search::NegaMax` (child calls by oracle). -/
def negaMax (inp : NMInput) : Int :=
  if inp.height ≠ 0 ∧ inp.isDraw = true then 0
  else
    match ttStep inp with
    | .ret v => v
    | .go alpha beta ttScore ttMoveValid =>
      if inp.height ≠ 0 ∧ pruneByMateDistance inp.height alpha beta ≠ 0 then
        pruneByMateDistance inp.height alpha beta
      else if nodeMaxDepth inp ≤ inp.height then inp.quiescence
      else
        match futilityStep inp alpha beta ttScore with
        | some v => v
        | none =>
          match nullMoveStep inp beta ttScore ttMoveValid with
          | some v => v
          | none =>
            let extFrac := (if inp.isInCheck then 1 else 0) <<< MaxDepthShift
            let totalQuiet := (inp.moves.filter (fun m => m.isQuiet)).length
            let r := runMoves inp beta extFrac totalQuiet inp.moves alpha 0 0
            if r.2.1 = 0 then
              if inp.isInCheck then -CheckmateValue + (inp.height : Int) else 0
            else r.1

/-! ## Aspiration windows (`src/Search.cpp`, `Search::AspirationWindowSearch`)

`NegaMax` is an oracle `f alpha beta` together with the bound asserted at
the call site (`ASSERT(score >= -CheckmateValue && score <= CheckmateValue)`). -/

/-- The initial aspiration window:
`max(AspirationWindowMin, AspirationWindowMax - (depth - start) * step)`. -/
def aspirationInitialWindow (depth : Nat) : Int :=
  max AspirationWindowMin
    (AspirationWindowMax - ((depth : Int) - (AspirationWindowSearchStartDepth : Int))
      * AspirationWindowStep)

/-- The retry loop of `AspirationWindowSearch`: search, and while the score
falls on or outside the window, widen symmetrically by the current window and
double it. -/
def aspirationLoop (f : Int → Int → Int)
    (hf : ∀ a b, -CheckmateValue ≤ f a b ∧ f a b ≤ CheckmateValue)
    (alpha beta w : Int) (hw : 0 < w) : Int :=
  if h : f alpha beta ≤ alpha ∨ beta ≤ f alpha beta then
    aspirationLoop f hf (alpha - w) (beta + w) (w * 2) (by omega)
  else f alpha beta
termination_by ((alpha + CheckmateValue + 1).toNat + (CheckmateValue + 1 - beta).toNat)
decreasing_by
  have h1 := hf alpha beta
  omega

/-- `Search::AspirationWindowSearch`: full window below the start depth,
otherwise a window of initial width centred on the previous score, clamped to
`[-InfValue, InfValue]`. -/
def aspirationWindowSearch (f : Int → Int → Int)
    (hf : ∀ a b, -CheckmateValue ≤ f a b ∧ f a b ≤ CheckmateValue)
    (previousScore : Int) (depth : Nat) : Int :=
  let w := aspirationInitialWindow depth
  have hw : 0 < w :=
    lt_of_lt_of_le (by norm_num [AspirationWindowMin]) (le_max_left AspirationWindowMin _)
  if AspirationWindowSearchStartDepth ≤ depth then
    aspirationLoop f hf (max (previousScore - w) (-InfValue))
      (min (previousScore + w) InfValue) w hw
  else
    aspirationLoop f hf (-InfValue) InfValue w hw

/-! ## Search driver (`src/Search.cpp`, `Search::DoSearch`)

The early-exit path and its observable effects; one completed
(depth, pvIndex) aspiration search is an oracle. -/

structure PvLine where
  score : Int
  moves : List Nat
  deriving DecidableEq, Repr

/-- Observable effects of `Search::DoSearch` on its out-parameter and the
searcher state. -/
structure SearchEffects where
  result : List PvLine
  historyCleared : Bool       -- memset(searchHistory, ...) executed
  killersCleared : Bool       -- memset(killerMoves, ...) executed
  searchIterations : Nat      -- number of AspirationWindowSearch invocations
  errorSignalled : Bool
  deriving DecidableEq, Repr

/-- `Search::DoSearch`: clamp the PV-line count by the number of legal moves,
clear and resize the result, and exit before clearing the history/killer
tables or searching when the clamped count is zero. -/
def doSearch (numPvLinesParam numLegalMoves maxDepth : Nat)
    (iterate : Nat → Nat → PvLine) : SearchEffects :=
  let numPvLines := min numPvLinesParam numLegalMoves
  if numPvLines = 0 then
    { result := [], historyCleared := false, killersCleared := false,
      searchIterations := 0, errorSignalled := false }
  else
    { result := (List.range numPvLines).map (fun pvIndex => iterate maxDepth pvIndex),
      historyCleared := true, killersCleared := true,
      searchIterations := maxDepth * numPvLines, errorSignalled := false }

/-! ## Concrete instances used by witnesses and counterexamples -/

/-- A TT entry with all-zero fields. -/
def ttEntryA : TTEntry :=
  { score := 0, staticEval := 0, move := 0, depth := 0, bounds := .Invalid, generation := 0 }

/-- A TT entry whose bit image (hence `GetHash`) differs from `ttEntryA`. -/
def ttEntryB : TTEntry :=
  { score := 1, staticEval := 0, move := 0, depth := 0, bounds := .Invalid, generation := 0 }

/-- A concrete position for the repetition counterexample. -/
def pos0 : Pos := { hash := 7, board := 0 }

/-- A node whose previous move is a (valid) pawn move. -/
def node0 : SNode :=
  { position := pos0, previousMove := { valid := true, piece := 1, isCapture := false } }

/-- A played-game repetition map recording `pos0` twice. -/
def game0 : Pos → Nat := fun p => if p = pos0 then 2 else 0

/-- A valid quiet killer move (slot 1). -/
def killer2Move : PMove := { id := 5, valid := true, isQuiet := true, isCapture := false }

/-- A valid quiet counter move, distinct from everything else. -/
def counterMove0 : PMove := { id := 9, valid := true, isQuiet := true, isCapture := false }

/-- A picker state in stage `Killer2` whose killer slot 1 will yield and whose
counter move is available. -/
def picker0 : MovePicker :=
  { stage := .Killer2, moveIndex := 0, pvMove := PMove.invalid, ttMoves := [],
    moves := [], killer0 := PMove.invalid, killer1 := killer2Move,
    counterMove := counterMove0, genQuiets := true, capturesGen := [],
    quietsGen := [], savedKiller0 := PMove.invalid, savedKiller1 := PMove.invalid,
    savedCounter := PMove.invalid }

/-- A `NegaMax` node in check whose single generated move is illegal. -/
def inpNoLegal : NMInput :=
  { height := 3, maxDepthFractional := 5 * 256, alpha := -50, beta := 50,
    isPvNode := false, isNullMove := false, parentIsNullMove := false,
    isInCheck := true, isDraw := false, tt := none, eval := 0, quiescence := 0,
    nullSearch := fun _ _ _ => 0,
    moves := [{ legal := false, isQuiet := true, search := fun _ _ _ => 0 }] }

/-- A `NegaMax` node at height 2 with `alpha = 99999`, `beta = 100001`:
mate-distance pruning fires. -/
def inpMateDist : NMInput :=
  { height := 2, maxDepthFractional := 5 * 256, alpha := 99999, beta := 100001,
    isPvNode := false, isNullMove := false, parentIsNullMove := false,
    isInCheck := false, isDraw := false, tt := none, eval := 0, quiescence := 0,
    nullSearch := fun _ _ _ => 0, moves := [] }

/-- A `NegaMax` node at height 2 with `alpha = 99999`, `beta = 100000`: the
claim's tightened window collapses, and the claim's return value (`alpha`)
differs from the code's. -/
def inpMateDistX : NMInput :=
  { height := 2, maxDepthFractional := 5 * 256, alpha := 99999, beta := 100000,
    isPvNode := false, isNullMove := false, parentIsNullMove := false,
    isInCheck := false, isDraw := false, tt := none, eval := 0, quiescence := 0,
    nullSearch := fun _ _ _ => 0, moves := [] }

/-- A non-PV, not-in-check `NegaMax` node at remaining depth 3 whose static
evaluation (1000) clears `beta = 0` by more than the beta margin (270). -/
def inpBetaPrune : NMInput :=
  { height := 1, maxDepthFractional := 4 * 256, alpha := -5, beta := 0,
    isPvNode := false, isNullMove := false, parentIsNullMove := false,
    isInCheck := false, isDraw := false, tt := none, eval := 1000, quiescence := 0,
    nullSearch := fun _ _ _ => 0, moves := [] }

/-! ## Theorems -/

/-- Lower/upper bracketing of `b * cppDiv a b` around `a`, for a positive
divisor: the quotient times divisor differs from the dividend by less than the
divisor in absolute value. -/
theorem cppDiv_bracket (a b : Int) (hb : 0 < b) :
    a - (b - 1) ≤ b * cppDiv a b ∧ b * cppDiv a b ≤ a + (b - 1) := by
  unfold cppDiv
  by_cases h : 0 ≤ a
  · simp only [h, if_true]
    have h1 := Int.ediv_add_emod a b
    have h2 := Int.emod_nonneg a (by omega : b ≠ 0)
    have h3 := Int.emod_lt_of_pos a hb
    omega
  · simp only [h, if_false]
    have h1 := Int.ediv_add_emod (-a) b
    have h2 := Int.emod_nonneg (-a) (by omega : b ≠ 0)
    have h3 := Int.emod_lt_of_pos (-a) hb
    have h4 : b * -(-a / b) = -(b * (-a / b)) := by ring
    omega

/-- Core bound for the counter update: starting from
`h ∈ [-24576, 16384]` and any delta of magnitude in `[1, 2000]`, the updated
counter stays in `[-24576, 16384]`. -/
theorem updateHistoryCounter_mem (h δ : Int)
    (hh1 : -24576 ≤ h) (hh2 : h ≤ 16384)
    (hb1 : 1 ≤ (δ.natAbs : Int)) (hb2 : (δ.natAbs : Int) ≤ 2000) :
    -24576 ≤ updateHistoryCounter h δ ∧ updateHistoryCounter h δ ≤ 16384 := by
  unfold updateHistoryCounter
  set b : Int := (δ.natAbs : Int) with hbdef
  set D : Int := cppDiv (h * b + 8192) 16384 with hDdef
  have hbr := cppDiv_bracket (h * b + 8192) 16384 (by norm_num)
  rw [← hDdef] at hbr
  have hδle : δ ≤ b := by
    have := Int.le_natAbs (a := δ); omega
  have hδge : -b ≤ δ := by
    have h1 : -δ ≤ ((-δ).natAbs : Int) := Int.le_natAbs
    have h2 : ((-δ).natAbs : Int) = b := by
      rw [Int.natAbs_neg]
    omega
  constructor
  · -- lower bound: show D ≤ h - b + 24576
    have hD : D ≤ h - b + 24576 := by
      by_contra hcon
      push_neg at hcon
      have h16 : 16384 * (h - b + 24577) ≤ 16384 * D := by
        have : h - b + 24577 ≤ D := by omega
        nlinarith
      -- 16384 * D ≤ h*b + 8192 + 16383
      have hub : 16384 * D ≤ h * b + 8192 + 16383 := by omega
      -- derive h*b + 16384*b - 16384*h ≥ big, contradicting the range bounds
      have hkey : h * b + 16384 * b - 16384 * h ≥ 16384 * 24577 - 24575 := by nlinarith
      rcases le_or_lt 0 h with hh0 | hh0
      · nlinarith
      · nlinarith [mul_le_mul_of_nonneg_right (by omega : -h ≤ 24576) (by omega : (0:Int) ≤ 16384 - b)]
    omega
  · -- upper bound: show D ≥ h + b - 16384
    have hD : h + b - 16384 ≤ D := by
      by_contra hcon
      push_neg at hcon
      have h16 : 16384 * D ≤ 16384 * (h + b - 16385) := by
        have : D ≤ h + b - 16385 := by omega
        nlinarith
      have hlb : h * b + 8192 - 16383 ≤ 16384 * D := by omega
      -- (16384 - h) * (16384 - b) ≥ 0 gives the contradiction
      nlinarith [mul_nonneg (by omega : (0:Int) ≤ 16384 - h) (by omega : (0:Int) ≤ 16384 - b)]
    omega

/-- C2: storing `{key32 = k XOR hash_of_entry_bits, e}` and loading
reconstructs exactly `(k, e)`; any probe that returns an entry can only have
read a record that is exactly a store of that entry under the probed key; and
a torn record, whose key word comes from a store of an entry with different
hash bits, fails the reconstruction and is rejected as a miss. -/
theorem tt_lockless_store_load_roundtrip (k : Nat) (e e2 : TTEntry) :
    (InternalEntry.Store k e).Load = (k, e)
    ∧ (∀ r : InternalEntry, probe k r = some e2 → r = InternalEntry.Store k e2)
    ∧ (e.GetHash ≠ e2.GetHash →
        probe k { key := (InternalEntry.Store k e).key, entry := e2 } = none) := by
  refine ⟨?_, ?_, ?_⟩
  · unfold InternalEntry.Store InternalEntry.Load
    simp [Nat.xor_cancel_right]
  · intro r hr
    unfold probe at hr
    by_cases hk : r.Load.1 = k
    · simp only [hk, if_true, Option.some.injEq] at hr
      unfold InternalEntry.Load at hk
      have hkey : r.key = k ^^^ e2.GetHash := by
        rw [← hr, ← hk, Nat.xor_cancel_right]
      cases r with
      | mk key entry =>
        simp only [InternalEntry.Store]
        simp only at hkey hr
        subst hr
        rw [hkey]
    · simp [hk] at hr
  · intro hneq
    have hload : ({ key := (InternalEntry.Store k e).key, entry := e2 } : InternalEntry).Load.1
        = k ^^^ e.GetHash ^^^ e2.GetHash := rfl
    have hne : k ^^^ e.GetHash ^^^ e2.GetHash ≠ k := by
      intro hcontra
      apply hneq
      have h3 : k ^^^ (e.GetHash ^^^ e2.GetHash) = k ^^^ 0 := by
        rw [← Nat.xor_assoc, hcontra, Nat.xor_zero]
      exact Nat.xor_eq_zero.mp (Nat.xor_right_injective h3)
    unfold probe
    rw [hload, if_neg hne]

/-- C2 witness: the three parts at concrete inputs. -/
theorem tt_lockless_store_load_roundtrip_witness :
    (InternalEntry.Store 5 ttEntryA).Load = (5, ttEntryA)
    ∧ InternalEntry.Store 5 ttEntryA = InternalEntry.Store 5 ttEntryA
    ∧ probe 5 { key := (InternalEntry.Store 5 ttEntryA).key, entry := ttEntryB } = none :=
  ⟨(tt_lockless_store_load_roundtrip 5 ttEntryA ttEntryB).1,
   (tt_lockless_store_load_roundtrip 5 ttEntryA ttEntryA).2.1
     (InternalEntry.Store 5 ttEntryA) (by decide),
   (tt_lockless_store_load_roundtrip 5 ttEntryA ttEntryB).2.2 (by decide)⟩

/-- C6 counterexample: at `h = -16384` (inside the claimed interval) and
`δ = -bonus` with `bonus = 2000` (depth 15), the code's update yields
`-16385`, outside `[-16384, 16384]`; it also differs there from the claim's
update formula `h + δ - h * |δ| / 16384` (truncating division). -/
theorem history_counter_claim_counterexample :
    (-16384 : Int) ≤ -16384 ∧ (-16384 : Int) ≤ 16384
    ∧ quietMoveBonus 15 = 2000
    ∧ updateHistoryCounter (-16384) (-(quietMoveBonus 15)) = -16385
    ∧ updateHistoryCounter (-16384) (-(quietMoveBonus 15)) < -16384
    ∧ updateHistoryCounter (-16384) (-(quietMoveBonus 15))
        ≠ -16384 + -(2000 : Int) - cppDiv (-16384 * 2000) 16384 := by
  refine ⟨by norm_num, by norm_num, by decide, by decide, by decide, by decide⟩

/-- C6 (amended): the update is
`h + δ - (h * |δ| + 8192) / 16384` (truncating division, `+8192` rounding),
and for every starting value in `[-24576, 16384]` and every `δ = ±bonus`
with `bonus = min(128 * (depth - 1) + depth², 2000)` (any search depth
`0 ≤ depth ≤ 255`), the updated value is again in `[-24576, 16384]`. -/
theorem history_counter_bounds (h d δ : Int)
    (hd0 : 0 ≤ d) (hd1 : d ≤ 255)
    (hδ : δ = quietMoveBonus d ∨ δ = -(quietMoveBonus d))
    (hh1 : -24576 ≤ h) (hh2 : h ≤ 16384) :
    -24576 ≤ updateHistoryCounter h δ ∧ updateHistoryCounter h δ ≤ 16384 := by
  have hbonus : 1 ≤ (quietMoveBonus d).natAbs ∧ (quietMoveBonus d).natAbs ≤ 2000 := by
    unfold quietMoveBonus
    rcases eq_or_lt_of_le hd0 with h0 | h0
    · rw [← h0]; decide
    · have h1 : 1 ≤ d := h0
      have hge : (1 : Int) ≤ min (128 * (d - 1) + d * d) 2000 := by
        have : (1 : Int) ≤ 128 * (d - 1) + d * d := by nlinarith
        omega
      have hle : min (128 * (d - 1) + d * d) 2000 ≤ 2000 := min_le_right _ _
      omega
  have habs : (δ.natAbs : Int) = ((quietMoveBonus d).natAbs : Int) := by
    rcases hδ with h | h <;> rw [h]
    rw [Int.natAbs_neg]
  exact updateHistoryCounter_mem h δ hh1 hh2 (by omega) (by omega)

/-- C6 witness: a concrete in-range update (depth 3, bonus 265). -/
theorem history_counter_bounds_witness :
    -24576 ≤ updateHistoryCounter 100 (quietMoveBonus 3)
    ∧ updateHistoryCounter 100 (quietMoveBonus 3) ≤ 16384 :=
  history_counter_bounds 100 3 (quietMoveBonus 3) (by decide) (by decide)
    (Or.inl rfl) (by decide) (by decide)

/-- C8: the cuckoo-table initialization performs exactly 3668 insertions for
the standard chess move set (both colors, one per reversible single-piece
move between attack-connected square pairs, pawn moves excluded). -/
theorem cuckoo_init_count_3668 : cuckooInitCount = 3668 := by decide

/-- C10: when the clamped PV-line count is zero (no legal moves, or zero
requested lines), `DoSearch` returns an empty result without clearing the
history/killer tables, without any search iteration, and without signalling
an error. -/
theorem doSearch_zero_pv_lines_early_exit (p l d : Nat) (it : Nat → Nat → PvLine)
    (h : min p l = 0) :
    doSearch p l d it =
      { result := [], historyCleared := false, killersCleared := false,
        searchIterations := 0, errorSignalled := false } := by
  unfold doSearch
  simp [h]

/-- C10 witness: a position with zero legal moves. -/
theorem doSearch_zero_pv_lines_early_exit_witness :
    doSearch 3 0 10 (fun _ _ => { score := 0, moves := [] }) =
      { result := [], historyCleared := false, killersCleared := false,
        searchIterations := 0, errorSignalled := false } :=
  doSearch_zero_pv_lines_early_exit 3 0 10 (fun _ _ => { score := 0, moves := [] })
    (by decide)

/-- The stack-walk comparison condition, as a proposition. -/
theorem repCond_iff (ply : Nat) (next : SNode) (cur : Pos) :
    ((ply % 2 == 0) && (next.position.hash == cur.hash) && (next.position == cur)) = true
      ↔ (ply % 2 = 0 ∧ next.position = cur) := by
  constructor
  · intro h
    simp only [Bool.and_eq_true, beq_iff_eq] at h
    exact ⟨h.1.1, h.2⟩
  · intro h
    simp only [Bool.and_eq_true, beq_iff_eq]
    exact ⟨⟨h.1, by rw [h.2]⟩, h.2⟩

/-- Characterization of the `IsRepetition` stack-walk loop: it succeeds iff
either some entry of `rest` at suitable parity holds the current position with
all previous-move checks up to it reversible, or the walk reaches the stack
bottom through reversible moves only and the game map records the position at
least twice. -/
theorem isRepetitionLoop_iff (game : Pos → Nat) (cur : Pos) :
    ∀ (rest : List SNode) (prev : SNode) (ply : Nat),
    isRepetitionLoop game cur prev rest ply = true ↔
      ((∃ i, ∃ hi : i < rest.length, (ply + i) % 2 = 0
          ∧ (rest.get ⟨i, hi⟩).position = cur
          ∧ prev.previousMove.irreversible = false
          ∧ ∀ j, ∀ hj : j < rest.length, j < i →
              (rest.get ⟨j, hj⟩).previousMove.irreversible = false)
        ∨ (prev.previousMove.irreversible = false
            ∧ (∀ j, ∀ hj : j < rest.length,
                (rest.get ⟨j, hj⟩).previousMove.irreversible = false)
            ∧ 2 ≤ game cur)) := by
  intro rest
  induction rest with
  | nil =>
    intro prev ply
    unfold isRepetitionLoop
    by_cases hp : prev.previousMove.irreversible
    · rw [if_pos hp]
      constructor
      · intro h
        exact absurd h (by simp)
      · rintro (⟨i, hi, _⟩ | ⟨hpf, _, _⟩)
        · exact absurd hi (by simp)
        · rw [hp] at hpf
          exact absurd hpf (by simp)
    · rw [if_neg hp]
      rw [decide_eq_true_iff]
      constructor
      · intro hg
        exact Or.inr ⟨by simpa using hp, by intro j hj; exact absurd hj (by simp), hg⟩
      · rintro (⟨i, hi, _⟩ | ⟨_, _, hg⟩)
        · exact absurd hi (by simp)
        · exact hg
  | cons next others ih =>
    intro prev ply
    unfold isRepetitionLoop
    by_cases hp : prev.previousMove.irreversible
    · rw [if_pos hp]
      constructor
      · intro h
        exact absurd h (by simp)
      · rintro (⟨i, hi, _, _, hpf, _⟩ | ⟨hpf, _, _⟩) <;>
          · rw [hp] at hpf
            exact absurd hpf (by simp)
    · rw [if_neg hp]
      have hpf : prev.previousMove.irreversible = false := by simpa using hp
      by_cases hc : (ply % 2 = 0 ∧ next.position = cur)
      · rw [if_pos ((repCond_iff ply next cur).mpr hc)]
        constructor
        · intro _
          refine Or.inl ⟨0, by simp, by simpa using hc.1, by simpa using hc.2, hpf, ?_⟩
          intro j hj hj0
          exact absurd hj0 (by omega)
        · intro _
          rfl
      · rw [if_neg (fun hb => hc ((repCond_iff ply next cur).mp hb))]
        rw [ih next (ply + 1)]
        constructor
        · rintro (⟨i, hi, hpar, hpos, hnf, hall⟩ | ⟨hnf, hall, hg⟩)
          · refine Or.inl ⟨i + 1, by simpa using Nat.succ_lt_succ hi, ?_, ?_, hpf, ?_⟩
            · omega
            · simpa using hpos
            · intro j hj hji
              match j with
              | 0 => simpa using hnf
              | j' + 1 =>
                have : j' < i := by omega
                simpa using hall j' (by simpa using hj) this
          · refine Or.inr ⟨hpf, ?_, hg⟩
            intro j hj
            match j with
            | 0 => simpa using hnf
            | j' + 1 => simpa using hall j' (by simpa using hj)
        · rintro (⟨k, hk, hpar, hpos, _, hall⟩ | ⟨_, hall, hg⟩)
          · match k with
            | 0 =>
              exfalso
              exact hc ⟨by simpa using hpar, by simpa using hpos⟩
            | i + 1 =>
              refine Or.inl ⟨i, by simpa using hk, ?_, by simpa using hpos, ?_, ?_⟩
              · omega
              · simpa using hall 0 (by simp) (by omega)
              · intro j hj hji
                simpa using hall (j + 1) (by simpa using Nat.succ_lt_succ hj) (by omega)
          · refine Or.inr ⟨by simpa using hall 0 (by simp), ?_, hg⟩
            intro j hj
            simpa using hall (j + 1) (by simpa using Nat.succ_lt_succ hj)

/-- C3 counterexample: a node whose previous move is a pawn move, with the
current position recorded twice in the played-game map.  The claim's
right-hand side holds (clause (b)), but `IsRepetition` returns false: the
walk aborts on the irreversible move before consulting the game map. -/
theorem isRepetition_claim_counterexample :
    ¬ (IsRepetition game0 node0 [] = true ↔
        (SpecStackRepetition [node0] node0.position ∨ 2 ≤ game0 node0.position)) := by
  intro hiff
  have htrue := hiff.mpr (Or.inr (by decide))
  have hfalse : IsRepetition game0 node0 [] = false := by decide
  rw [htrue] at hfalse
  exact absurd hfalse (by decide)

/-- C3 (amended): `IsRepetition` returns true exactly when either (a) some
ancestor at an even, positive ply distance holds a position identical to the
current one with no pawn move or capture on the chain between them, or (b)
the walk reaches the bottom of the stack with every previous move on it
reversible *and* the played-game repetition map records the current position
at least twice (an irreversible move anywhere on the stack aborts the walk
before the game map is consulted). -/
theorem isRepetition_iff_stack_or_reversible_game (game : Pos → Nat) (node : SNode)
    (ancestors : List SNode) :
    IsRepetition game node ancestors = true ↔
      (SpecStackRepetition (node :: ancestors) node.position
        ∨ (SpecChainReversible (node :: ancestors) ∧ 2 ≤ game node.position)) := by
  unfold IsRepetition
  rw [isRepetitionLoop_iff]
  unfold SpecStackRepetition SpecChainReversible
  constructor
  · rintro (⟨i, hi, hpar, hpos, hnf, hall⟩ | ⟨hnf, hall, hg⟩)
    · refine Or.inl ⟨i + 1, by simpa using Nat.succ_lt_succ hi, by omega, ?_, by simpa using hpos, ?_⟩
      · omega
      · intro j hj hji
        match j with
        | 0 => simpa using hnf
        | j' + 1 =>
          simpa using hall j' (by simpa using hj) (by omega)
    · refine Or.inr ⟨?_, hg⟩
      intro j hj
      match j with
      | 0 => simpa using hnf
      | j' + 1 => simpa using hall j' (by simpa using hj)
  · rintro (⟨k, hk, hk0, hpar, hpos, hall⟩ | ⟨hall, hg⟩)
    · match k with
      | 0 => omega
      | i + 1 =>
        refine Or.inl ⟨i, by simpa using hk, by omega, by simpa using hpos, ?_, ?_⟩
        · simpa using hall 0 (by simp) (by omega)
        · intro j hj hji
          simpa using hall (j + 1) (by simpa using Nat.succ_lt_succ hj) (by omega)
    · refine Or.inr ⟨by simpa using hall 0 (by simp), ?_, hg⟩
      intro j hj
      simpa using hall (j + 1) (by simpa using Nat.succ_lt_succ hj)

/-- `PickQuiets` leaves the picker in `PickQuiets` or `End`. -/
theorem stagePickQuiets_stage (s : MovePicker) :
    7 ≤ ((stagePickQuiets s).2).stage.idx
      ∧ ((stagePickQuiets s).2).stage ≠ MPStage.Counter := by
  simp only [stagePickQuiets]
  cases hb : bestMoveIdx s.moves <;> simp [MPStage.idx]

/-- `GenerateQuiets` leaves the picker in `PickQuiets` or `End`. -/
theorem stageGenerateQuiets_stage (s : MovePicker) :
    7 ≤ ((stageGenerateQuiets s).2).stage.idx
      ∧ ((stageGenerateQuiets s).2).stage ≠ MPStage.Counter := by
  exact stagePickQuiets_stage _

/-- The `Counter` body never leaves the picker in stage `Counter` and only
moves forward. -/
theorem stageCounter_stage (s : MovePicker) :
    6 ≤ ((stageCounter s).2).stage.idx
      ∧ ((stageCounter s).2).stage ≠ MPStage.Counter := by
  simp only [stageCounter]
  split
  · exact ⟨by simp [MPStage.idx], by simp⟩
  · exact ⟨le_trans (by norm_num) (stageGenerateQuiets_stage _).1,
      (stageGenerateQuiets_stage _).2⟩

/-- The `Killer2` body resumes at `GenerateQuiets` or beyond, never at
`Counter`. -/
theorem stageKiller2_stage (s : MovePicker) :
    6 ≤ ((stageKiller2 s).2).stage.idx
      ∧ ((stageKiller2 s).2).stage ≠ MPStage.Counter := by
  simp only [stageKiller2]
  split
  · exact ⟨by simp [MPStage.idx], by simp⟩
  · exact stageCounter_stage _

/-- The `Killer1` body advances the stage. -/
theorem stageKiller1_stage (s : MovePicker) :
    4 ≤ ((stageKiller1 s).2).stage.idx
      ∧ ((stageKiller1 s).2).stage ≠ MPStage.Counter := by
  simp only [stageKiller1]
  split
  · exact ⟨by simp [MPStage.idx], by simp⟩
  · exact ⟨le_trans (by norm_num) (stageKiller2_stage _).1, (stageKiller2_stage _).2⟩

/-- The `Captures` body keeps the stage at `Captures` (on a yield) or
advances it. -/
theorem stageCaptures_stage (s : MovePicker) (hs : s.stage = MPStage.Captures) :
    2 ≤ ((stageCaptures s).2).stage.idx
      ∧ ((stageCaptures s).2).stage ≠ MPStage.Counter := by
  simp only [stageCaptures]
  cases hb : bestMoveIdx s.moves
  · simp only []
    split
    · exact ⟨by simp [MPStage.idx], by simp⟩
    · exact ⟨le_trans (by norm_num) (stageKiller1_stage _).1, (stageKiller1_stage _).2⟩
  · simp only []
    split
    · exact ⟨by simp [hs, MPStage.idx], by simp [hs]⟩
    · split
      · exact ⟨by simp [MPStage.idx], by simp⟩
      · exact ⟨le_trans (by norm_num) (stageKiller1_stage _).1, (stageKiller1_stage _).2⟩

/-- The `TTMove` body keeps the stage at `TTMove` (on a yield) or advances
it. -/
theorem stageTTMove_stage (s : MovePicker) (hs : s.stage = MPStage.TTMove) :
    1 ≤ ((stageTTMove s).2).stage.idx
      ∧ ((stageTTMove s).2).stage ≠ MPStage.Counter := by
  simp only [stageTTMove]
  cases hb : ttFindFrom s.pvMove s.genQuiets (s.ttMoves.drop s.moveIndex) s.moveIndex
  · simp only []
    exact ⟨le_trans (by norm_num) (stageCaptures_stage _ rfl).1,
      (stageCaptures_stage _ rfl).2⟩
  · simp only []
    exact ⟨by simp [hs, MPStage.idx], by simp [hs]⟩

/-- The `PVMove` body advances the stage. -/
theorem stagePVMove_stage (s : MovePicker) :
    1 ≤ ((stagePVMove s).2).stage.idx
      ∧ ((stagePVMove s).2).stage ≠ MPStage.Counter := by
  simp only [stagePVMove]
  split
  · exact ⟨by simp [MPStage.idx], by simp⟩
  · exact stageTTMove_stage _ rfl

/-- C7 counterexample: from a concrete state in stage `Killer2` that yields
its killer move, the stored next stage is `GenerateQuiets` — the `Counter`
stage is skipped — and the picker's valid, non-capture counter move is never
yielded (the following call is already exhausted). -/
theorem movePicker_counter_stage_skipped :
    picker0.stage = MPStage.Killer2
    ∧ picker0.counterMove.valid = true
    ∧ picker0.counterMove.isCapture = false
    ∧ (pickMove picker0).1 = some (killer2Move, KillerMoveBonus - 1)
    ∧ ((pickMove picker0).2).stage = MPStage.GenerateQuiets
    ∧ ((pickMove picker0).2).stage ≠ MPStage.Counter
    ∧ (pickMove ((pickMove picker0).2)).1 = none := by
  refine ⟨rfl, rfl, rfl, by decide, by decide, by decide, by decide⟩

/-- C7 (amended): across any sequence of `PickMove` calls the stored stage
only advances in the order
`PVMove → TTMove → Captures → Killer1 → Killer2 → (Counter) → GenerateQuiets →
PickQuiets → End`, each stage moving on exactly when it yields nothing more
(with `Captures → End` directly when quiet generation is off); the `Counter`
try runs only transiently inside a call in which `Killer2` yielded nothing —
after a `Killer2` yield the stored stage is already `GenerateQuiets`, so the
counter move is skipped — and the stage register never holds `Counter`.  Bad
captures stay in the shared move list and are yielded during the `PickQuiets`
stage by score. -/
theorem movePicker_stage_monotone (s : MovePicker) :
    s.stage.idx ≤ ((pickMove s).2).stage.idx
      ∧ ((pickMove s).2).stage ≠ MPStage.Counter := by
  cases hs : s.stage
  case PVMove =>
    unfold pickMove
    rw [hs]
    exact ⟨le_trans (by norm_num [MPStage.idx]) (stagePVMove_stage s).1,
      (stagePVMove_stage s).2⟩
  case TTMove =>
    unfold pickMove
    rw [hs]
    exact ⟨le_trans (by norm_num [MPStage.idx]) (stageTTMove_stage s hs).1,
      (stageTTMove_stage s hs).2⟩
  case Captures =>
    unfold pickMove
    rw [hs]
    exact ⟨le_trans (by norm_num [MPStage.idx]) (stageCaptures_stage s hs).1,
      (stageCaptures_stage s hs).2⟩
  case Killer1 =>
    unfold pickMove
    rw [hs]
    exact ⟨le_trans (by norm_num [MPStage.idx]) (stageKiller1_stage s).1,
      (stageKiller1_stage s).2⟩
  case Killer2 =>
    unfold pickMove
    rw [hs]
    exact ⟨le_trans (by norm_num [MPStage.idx]) (stageKiller2_stage s).1,
      (stageKiller2_stage s).2⟩
  case Counter =>
    unfold pickMove
    rw [hs]
    exact ⟨le_trans (by norm_num [MPStage.idx]) (stageCounter_stage s).1,
      (stageCounter_stage s).2⟩
  case GenerateQuiets =>
    unfold pickMove
    rw [hs]
    exact ⟨le_trans (by norm_num [MPStage.idx]) (stageGenerateQuiets_stage s).1,
      (stageGenerateQuiets_stage s).2⟩
  case PickQuiets =>
    unfold pickMove
    rw [hs]
    exact ⟨le_trans (by norm_num [MPStage.idx]) (stagePickQuiets_stage s).1,
      (stagePickQuiets_stage s).2⟩
  case End =>
    unfold pickMove
    rw [hs]
    exact ⟨by simp [hs, MPStage.idx], by simp [hs]⟩

/-- The move loop finds no legal move exactly when every `DoMove` fails; it
then returns the incoming `alpha` and a zero legal-move count. -/
theorem runMoves_all_illegal (inp : NMInput) (beta : Int) (extFrac totalQuiet : Nat) :
    ∀ (l : List ChildSearch) (alpha : Int) (numLegal numReduced : Nat),
    (∀ m ∈ l, m.legal = false) →
    runMoves inp beta extFrac totalQuiet l alpha numLegal numReduced
      = (alpha, numLegal, false) := by
  intro l
  induction l with
  | nil => intro alpha nl nr _; rfl
  | cons m rest ih =>
    intro alpha nl nr h
    have hm : m.legal = false := h m (List.mem_cons_self m rest)
    unfold runMoves
    rw [if_pos hm]
    exact ih alpha nl nr (fun x hx => h x (List.mem_cons_of_mem m hx))

/-- C1: when one `NegaMax` invocation reaches its move loop (no draw return,
no TT cutoff, no mate-distance return, no quiescence descent, no futility or
null-move return) and the loop finds no legal move, the function returns
`-CheckmateValue + height` when the side to move is in check and the draw
score `0` otherwise. -/
theorem negaMax_no_legal_move_terminal (inp : NMInput) (a b ts : Int) (tm : Bool)
    (hdraw : inp.isDraw = false ∨ inp.height = 0)
    (htt : ttStep inp = TTStepResult.go a b ts tm)
    (hmate : inp.height = 0 ∨ pruneByMateDistance inp.height a b = 0)
    (hq : inp.height < nodeMaxDepth inp)
    (hfut : futilityStep inp a b ts = none)
    (hnull : nullMoveStep inp b ts tm = none)
    (hmoves : ∀ m ∈ inp.moves, m.legal = false) :
    negaMax inp = if inp.isInCheck then -CheckmateValue + (inp.height : Int) else 0 := by
  unfold negaMax
  have hdraw' : ¬(inp.height ≠ 0 ∧ inp.isDraw = true) := by
    rintro ⟨h1, h2⟩
    rcases hdraw with h | h
    · rw [h] at h2; exact absurd h2 (by simp)
    · exact h1 h
  rw [if_neg hdraw']
  simp only [htt]
  have hmate' : ¬(inp.height ≠ 0 ∧ pruneByMateDistance inp.height a b ≠ 0) := by
    rintro ⟨h1, h2⟩
    rcases hmate with h | h
    · exact h1 h
    · exact h2 h
  rw [if_neg hmate', if_neg (by omega : ¬ nodeMaxDepth inp ≤ inp.height)]
  simp only [hfut, hnull]
  rw [runMoves_all_illegal inp b _ _ inp.moves a 0 0 hmoves]
  simp

/-- C1 witness: a node in check whose only generated move is illegal. -/
theorem negaMax_no_legal_move_terminal_witness :
    negaMax inpNoLegal
      = if inpNoLegal.isInCheck then -CheckmateValue + (inpNoLegal.height : Int) else 0 :=
  negaMax_no_legal_move_terminal inpNoLegal (-50) 50 InvalidValue false (Or.inl rfl)
    (by decide) (Or.inr (by decide)) (by decide) (by decide) (by decide) (by decide)

/-- C4 counterexample: at height 2 with `alpha = 99999`, `beta = 100000`, the
claim's tightened bounds are `alpha' = max(alpha, -Mate + height) = 99999`
and `beta' = min(beta, Mate - height - 1) = 99997`, so `alpha' ≥ beta'` and
the claim demands a return of `alpha' = 99999`; the code instead tightens
`beta` only to `Mate - height = 99998` and returns that mating value. -/
theorem mate_distance_claim_counterexample :
    max inpMateDistX.alpha (-CheckmateValue + (inpMateDistX.height : Int)) = 99999
    ∧ min inpMateDistX.beta (CheckmateValue - (inpMateDistX.height : Int) - 1) = 99997
    ∧ min inpMateDistX.beta (CheckmateValue - (inpMateDistX.height : Int) - 1)
        ≤ max inpMateDistX.alpha (-CheckmateValue + (inpMateDistX.height : Int))
    ∧ negaMax inpMateDistX = 99998
    ∧ negaMax inpMateDistX
        ≠ max inpMateDistX.alpha (-CheckmateValue + (inpMateDistX.height : Int)) := by
  refine ⟨by decide, by decide, by decide, by decide, by decide⟩

/-- C4 (amended): at every non-root node that reaches mate-distance pruning,
the pruning works with `beta' = min(beta, Mate - height)` (no `- 1`) and
`alpha' = max(alpha, -Mate + height)`, the tightened bounds living only
inside the check (the caller keeps the original window); when the window
collapses the node immediately returns the crossed mating bound — not
`alpha`: `Mate - height` when `alpha ≥ Mate - height > `(tightened)` beta`
side, `-Mate + height` when `beta ≤ -Mate + height` on the other side. -/
theorem negaMax_mate_distance_pruning (inp : NMInput) (a b ts : Int) (tm : Bool)
    (hdraw : inp.isDraw = false)
    (hroot : inp.height ≠ 0)
    (htt : ttStep inp = TTStepResult.go a b ts tm)
    (hh : (inp.height : Int) < CheckmateValue) :
    ((CheckmateValue - (inp.height : Int) ≤ a ∧ CheckmateValue - (inp.height : Int) < b) →
        negaMax inp = CheckmateValue - (inp.height : Int))
    ∧ ((b ≤ -CheckmateValue + (inp.height : Int) ∧ a < -CheckmateValue + (inp.height : Int)) →
        negaMax inp = -CheckmateValue + (inp.height : Int)) := by
  have hdraw' : ¬(inp.height ≠ 0 ∧ inp.isDraw = true) := by
    rintro ⟨_, h2⟩
    rw [hdraw] at h2
    exact absurd h2 (by simp)
  have hpos : (0 : Int) ≤ (inp.height : Int) := Int.ofNat_nonneg _
  have hC : CheckmateValue = 100000 := rfl
  constructor
  · rintro ⟨h1, h2⟩
    have hprune : pruneByMateDistance inp.height a b
        = CheckmateValue - (inp.height : Int) := by
      unfold pruneByMateDistance
      rw [if_pos ⟨h2, h1⟩]
    unfold negaMax
    rw [if_neg hdraw']
    simp only [htt]
    rw [if_pos ⟨hroot, by rw [hprune]; omega⟩, hprune]
  · rintro ⟨h1, h2⟩
    have hprune : pruneByMateDistance inp.height a b
        = -CheckmateValue + (inp.height : Int) := by
      unfold pruneByMateDistance
      rw [if_neg, if_pos]
      · refine ⟨h2, ?_⟩
        rw [if_neg]
        · exact h1
        · omega
      · rintro ⟨hc1, _⟩
        omega
    unfold negaMax
    rw [if_neg hdraw']
    simp only [htt]
    rw [if_pos ⟨hroot, by rw [hprune]; omega⟩, hprune]

/-- C4 witness: the first (fail-high) mating bound at a concrete node. -/
theorem negaMax_mate_distance_pruning_witness :
    negaMax inpMateDist = CheckmateValue - (inpMateDist.height : Int) :=
  (negaMax_mate_distance_pruning inpMateDist 99999 100001 InvalidValue false rfl
    (by decide) (by decide) (by decide)).1 ⟨by decide, by decide⟩

/-- C5 counterexample: a non-PV, not-in-check node at remaining depth 3 with
static evaluation 1000 and `beta = 0` satisfies the claim's beta-pruning
conditions, yet `NegaMax` returns `static_eval - (BetaBias + BetaMul * depth)
= 730`, not `static_eval = 1000`. -/
theorem beta_pruning_claim_counterexample :
    inpBetaPrune.isPvNode = false
    ∧ inpBetaPrune.isInCheck = false
    ∧ inversedDepth inpBetaPrune ≤ BetaPruningDepth
    ∧ inpBetaPrune.beta ≤ staticEvalOf inpBetaPrune InvalidValue - betaMarginOf inpBetaPrune
    ∧ staticEvalOf inpBetaPrune InvalidValue = 1000
    ∧ negaMax inpBetaPrune = 730
    ∧ negaMax inpBetaPrune ≠ staticEvalOf inpBetaPrune InvalidValue := by
  refine ⟨rfl, rfl, by decide, by decide, by decide, by decide, by decide⟩

/-- C5 (amended): at every node reaching the futility block that is not a PV
node and not in check, with remaining depth at most `BetaPruningDepth` and
`static_eval - (BetaBias + BetaMul * depth) ≥ beta`, `NegaMax` returns
`static_eval - (BetaBias + BetaMul * depth)` (the margin-reduced value, not
`static_eval`). -/
theorem negaMax_beta_pruning_margin (inp : NMInput) (a b ts : Int) (tm : Bool)
    (hdraw : inp.isDraw = false ∨ inp.height = 0)
    (htt : ttStep inp = TTStepResult.go a b ts tm)
    (hmate : inp.height = 0 ∨ pruneByMateDistance inp.height a b = 0)
    (hq : inp.height < nodeMaxDepth inp)
    (hab : a ≤ b)
    (hpv : inp.isPvNode = false)
    (hchk : inp.isInCheck = false)
    (hdep : inversedDepth inp ≤ BetaPruningDepth)
    (hcond : b ≤ staticEvalOf inp ts - betaMarginOf inp) :
    negaMax inp = staticEvalOf inp ts - betaMarginOf inp := by
  have hfut : futilityStep inp a b ts
      = some (staticEvalOf inp ts - betaMarginOf inp) := by
    unfold futilityStep
    rw [if_pos ⟨hpv, hchk⟩]
    have hmargins : 0 < alphaMarginOf inp + betaMarginOf inp := by
      unfold alphaMarginOf betaMarginOf AlphaMarginBias AlphaMarginMultiplier
        BetaMarginBias BetaMarginMultiplier
      have : (0 : Int) ≤ (inversedDepth inp : Int) := Int.ofNat_nonneg _
      omega
    rw [if_neg, if_pos ⟨hdep, hcond⟩]
    rintro ⟨_, hcon⟩
    omega
  have hdraw' : ¬(inp.height ≠ 0 ∧ inp.isDraw = true) := by
    rintro ⟨h1, h2⟩
    rcases hdraw with h | h
    · rw [h] at h2; exact absurd h2 (by simp)
    · exact h1 h
  have hmate' : ¬(inp.height ≠ 0 ∧ pruneByMateDistance inp.height a b ≠ 0) := by
    rintro ⟨h1, h2⟩
    rcases hmate with h | h
    · exact h1 h
    · exact h2 h
  unfold negaMax
  rw [if_neg hdraw']
  simp only [htt]
  rw [if_neg hmate', if_neg (by omega : ¬ nodeMaxDepth inp ≤ inp.height)]
  simp only [hfut]

/-- C5 witness: the amended beta pruning at the concrete node. -/
theorem negaMax_beta_pruning_margin_witness :
    negaMax inpBetaPrune
      = staticEvalOf inpBetaPrune InvalidValue - betaMarginOf inpBetaPrune :=
  negaMax_beta_pruning_margin inpBetaPrune (-5) 0 InvalidValue false (Or.inl rfl)
    (by decide) (Or.inr (by decide)) (by decide) (by decide) rfl rfl (by decide)
    (by decide)

/-- The aspiration retry loop terminates (it is total by construction) and
its result is the oracle's score at some window that strictly contains it:
strong induction on the widening measure. -/
theorem aspirationLoop_in_window (f : Int → Int → Int)
    (hf : ∀ a b, -CheckmateValue ≤ f a b ∧ f a b ≤ CheckmateValue) :
    ∀ (n : Nat) (alpha beta w : Int) (hw : 0 < w),
    (alpha + CheckmateValue + 1).toNat + (CheckmateValue + 1 - beta).toNat ≤ n →
    ∃ a b, aspirationLoop f hf alpha beta w hw = f a b ∧ a < f a b ∧ f a b < b := by
  intro n
  induction n with
  | zero =>
    intro alpha beta w hw hm
    rw [aspirationLoop]
    split
    · next h =>
      exfalso
      have := hf alpha beta
      omega
    · exact ⟨alpha, beta, rfl, by have h := hf alpha beta; omega, by
        have h := hf alpha beta; omega⟩
  | succ n ih =>
    intro alpha beta w hw hm
    rw [aspirationLoop]
    split
    · next h =>
      apply ih
      have := hf alpha beta
      omega
    · next h =>
      push_neg at h
      exact ⟨alpha, beta, rfl, h.1, h.2⟩

/-- C9: for every root position (previous score) and requested depth, the
aspiration-window search terminates — the widening loop is well-founded
because `NegaMax` scores stay in `[-CheckmateValue, CheckmateValue]`, which
is strictly inside `[-InfValue, InfValue]` — and it returns the searched
score of a window that strictly contains it. -/
theorem aspirationWindowSearch_in_window (f : Int → Int → Int)
    (hf : ∀ a b, -CheckmateValue ≤ f a b ∧ f a b ≤ CheckmateValue)
    (previousScore : Int) (depth : Nat) :
    ∃ a b, aspirationWindowSearch f hf previousScore depth = f a b
      ∧ a < f a b ∧ f a b < b := by
  simp only [aspirationWindowSearch]
  split
  · exact aspirationLoop_in_window f hf _ _ _ _ _ le_rfl
  · exact aspirationLoop_in_window f hf _ _ _ _ _ le_rfl

/-- Score bounds for the constant-zero search oracle. -/
theorem aspOracleZero_bounds :
    ∀ a b : Int, -CheckmateValue ≤ (fun (_ _ : Int) => (0 : Int)) a b
      ∧ (fun (_ _ : Int) => (0 : Int)) a b ≤ CheckmateValue := by
  intro a b
  constructor <;> norm_num [CheckmateValue]

/-- C9 witness: the search at depth 6 from previous score 0 with the
constant-zero oracle. -/
theorem aspirationWindowSearch_in_window_witness :
    ∃ a b, aspirationWindowSearch (fun _ _ => 0) aspOracleZero_bounds 0 6
        = (fun (_ _ : Int) => (0 : Int)) a b
      ∧ a < (fun (_ _ : Int) => (0 : Int)) a b
      ∧ (fun (_ _ : Int) => (0 : Int)) a b < b :=
  aspirationWindowSearch_in_window (fun _ _ => 0) aspOracleZero_bounds 0 6

end Caissa
